import Mathlib

/-!
Verification of the docx content-control engine (`docx-cc/src/lib.rs`).

The Rust source is shallowly embedded: XML events become an inductive type,
the streaming `DocumentState` tracker becomes a fold over the event list, and
the substitution writer becomes a function from event lists to event lists.
The quick_xml reader and serializer, and the zip container, are external
libraries; wherever the source hands bytes to them (parsing a part or a
replacement fragment into events, serializing events back to bytes) the
embedding takes the corresponding function as an explicit parameter and the
theorems quantify over it.  Machine integers (`i32`, `i64`) are embedded as
`Int`; the event counters involved stay far below any overflow boundary.
-/

set_option autoImplicit false

namespace DocxCC

/-- XML events as produced by the streaming reader: `Start(name, attrs)`,
`End(name)`, `Empty(name, attrs)`, `Text`, a catch-all `Other`, and `Eof`.
Attribute lists carry (key, value) pairs. -/
inductive Event where
  | start (name : String) (attrs : List (String × String))
  | «end» (name : String)
  | empty (name : String) (attrs : List (String × String))
  | text (s : String)
  | other (s : String)
  | eof
  deriving Repr, BEq, DecidableEq

/-- True exactly on the end-of-file event. -/
def Event.is_eof : Event → Bool
  | Event.eof => true
  | _ => false

/-- Source `ContentControlType` from the source: the enumerated SDT kinds. -/
inductive ContentControlType where
  | unsupported
  | richText
  | text
  | comboBox
  | dropdownList
  | date
  | repeatingSection
  | repeatingSectionItem
  deriving Repr, BEq, DecidableEq

/-- Source `ContentControlType::parse_string`: map an element name inside `w:sdtPr`
to the SDT kind it denotes. -/
def ContentControlType.parse_string (value : String) : Option ContentControlType :=
  match value with
  | "w:richText" => some ContentControlType.richText
  | "w:text" => some ContentControlType.text
  | "w:comboBox" => some ContentControlType.comboBox
  | "w:dropDownList" => some ContentControlType.dropdownList
  | "w:date" => some ContentControlType.date
  | "w15:repeatingSection" => some ContentControlType.repeatingSection
  | "w15:repeatingSectionItem" => some ContentControlType.repeatingSectionItem
  | _ => none

/-- The sentinel used when a tag has no mapped replacement. -/
def MISSING_STR : String := "MISSING"

/-- Source `ContentControlPosition`: the per-SDT record of event offsets. -/
structure ContentControlPosition where
  type : ContentControlType
  tag : String
  «begin» : Int
  «end» : Int
  content_begin : Int
  content_end : Int
  paragraph_params_start : Int
  paragraph_params_end : Int
  contains_paragraph : Bool
  run_params_start : Int
  run_params_end : Int
  deriving Repr, BEq, DecidableEq

namespace ContentControlPosition

/-- Source `ContentControlPosition::new`: all offsets start at `-1`. -/
def new : ContentControlPosition :=
  { type := ContentControlType.unsupported
    tag := ""
    «begin» := -1
    «end» := -1
    content_begin := -1
    content_end := -1
    paragraph_params_start := -1
    paragraph_params_end := -1
    contains_paragraph := false
    run_params_start := -1
    run_params_end := -1 }

/-- Source `intersects_header`: the index lies after `begin` while neither the
content nor the close of the SDT has been seen. -/
def intersects_header (self : ContentControlPosition) (index : Int) : Bool :=
  decide (self.«begin» ≠ -1) && decide (self.«begin» < index) &&
    decide (self.content_begin = -1) && decide (self.«end» = -1)

/-- Source `intersects_content`: `content_begin <= index < content_end`. -/
def intersects_content (self : ContentControlPosition) (index : Int) : Bool :=
  decide (self.content_begin ≤ index) && decide (index < self.content_end)

/-- Source `content_opened`: `content_begin` has been assigned. -/
def content_opened (self : ContentControlPosition) : Bool :=
  decide (self.content_begin ≠ -1)

/-- Source `closed`: `end` has been assigned. -/
def closed (self : ContentControlPosition) : Bool :=
  decide (self.«end» ≠ -1)

/-- Source `content_closed`: `content_end` has been assigned. -/
def content_closed (self : ContentControlPosition) : Bool :=
  decide (self.content_end ≠ -1)

/-- Source `has_paragraph_params`: both paragraph-params offsets are set. -/
def has_paragraph_params (self : ContentControlPosition) : Bool :=
  decide (0 ≤ self.paragraph_params_start) && decide (0 ≤ self.paragraph_params_end)

/-- Source `has_run_params`: both run-params offsets are set. -/
def has_run_params (self : ContentControlPosition) : Bool :=
  decide (0 ≤ self.run_params_start) && decide (0 ≤ self.run_params_end)

end ContentControlPosition

/-- Pointwise update of a total map, modelling `HashMap::insert` on a map
read through `get(..).unwrap_or(&0)`. -/
def update_fn {β : Type} (f : String → β) (k : String) (v : β) : String → β :=
  fun x => if x = k then v else f x

/-- Model of `controls.iter_mut().rev().find(p)` followed by a mutation and
`break`: rewrite the last element satisfying `p` with `f`, leave the rest. -/
def update_last_matching {α : Type} (p : α → Bool) (f : α → α) : List α → List α
  | [] => []
  | x :: xs =>
    if xs.any p then x :: update_last_matching p f xs
    else if p x then f x :: xs
    else x :: xs

/-- Model of `controls.iter_mut().next_back()` followed by a mutation:
rewrite the last element with `f`. -/
def update_last {α : Type} (f : α → α) : List α → List α
  | [] => []
  | [x] => [f x]
  | x :: y :: xs => x :: update_last f (y :: xs)

/-- Flat-map over a list (explicit recursion keeps induction proofs direct). -/
def concat_map {α β : Type} (f : α → List β) : List α → List β
  | [] => []
  | x :: xs => f x ++ concat_map f xs

/-- Index the elements of a list starting at `n`, like `iter().enumerate()`. -/
def enum_from {α : Type} (n : Nat) : List α → List (Nat × α)
  | [] => []
  | x :: xs => (n, x) :: enum_from (n + 1) xs

/-- First element satisfying a boolean predicate, like `Iterator::find`. -/
def find_first {α : Type} (p : α → Bool) : List α → Option α
  | [] => none
  | x :: xs => if p x then some x else find_first p xs

/-- Association-list lookup, modelling `HashMap::get` (keys are unique in a
`HashMap`, so first match is the match). -/
def lookup_assoc {β : Type} (k : String) : List (String × β) → Option β
  | [] => none
  | kv :: rest => if kv.1 = k then some kv.2 else lookup_assoc k rest

/-- Half-open integer range `a..b` as a list, like Rust `a..b`. -/
def int_range (a b : Int) : List Int :=
  (List.range (b - a).toNat).map (fun k => a + (k : Int))

/-- The slice `events[a as usize .. b as usize]` of the event buffer. -/
def slice_events (events : List Event) (a b : Int) : List Event :=
  (events.take b.toNat).drop a.toNat

/-- The element access `events[i as usize]`; out-of-range access (which would
panic in the source and never occurs on indexer output) defaults to `Eof`,
which the writer ignores. -/
def get_event (events : List Event) (i : Int) : Event :=
  events.getD i.toNat Event.eof

/-- Source `Writer::write_event`: every event is emitted verbatim except `Eof`,
which writes nothing. -/
def write_event : Event → List Event
  | Event.eof => []
  | e => [e]

/-- Write a sequence of events through the writer. -/
def write_events (events : List Event) : List Event :=
  concat_map write_event events

/-- Bytes of a part (a `Vec<u8>` entry of the zip blob store). -/
abbrev ByteSeq : Type := List Nat

/-- The blob store `ZipData = HashMap<String, Vec<u8>>`, as an association
list from part name to bytes. -/
abbrev ZipData : Type := List (String × ByteSeq)

/-- Flat mapping from tag to replacement fragment string. -/
abbrev Mapping : Type := List (String × String)

/-- Repeat mapping from tag to a sequence of sub-mappings. -/
abbrev RepeatMapping : Type := List (String × List Mapping)

/-- Prefix test on byte lists (an explicit window comparison). -/
def starts_with_bytes : List Nat → List Nat → Bool
  | _, [] => true
  | [], _ :: _ => false
  | h :: hs, n :: ns => h == n && starts_with_bytes hs ns

/-- Source `find_subsequence` reduced to its use `..position(..).is_some()`: does
`needle` occur as a contiguous subsequence of `haystack`?  Matches the
source's `windows(len).position(window == needle)` for the non-empty needle
it is called with. -/
def find_subsequence : (haystack : List Nat) → (needle : List Nat) → Bool
  | [], needle => starts_with_bytes [] needle
  | h :: rest, needle => starts_with_bytes (h :: rest) needle || find_subsequence rest needle

/-- The byte string `<w:sdt>` (ASCII). -/
def sdt_tag_bytes : List Nat := [60, 119, 58, 115, 100, 116, 62]

/-- Source `has_content_control`: the part contains the literal substring `<w:sdt>`. -/
def has_content_control (text : ByteSeq) : Bool :=
  find_subsequence text sdt_tag_bytes

/-- Source `DocumentState`: depth counters per element name, last start offsets,
the growing position list, the eof flag, the last-closed marker and the
event counter. -/
structure DocumentState where
  states : String → Int
  positions : String → Int
  controls : List ContentControlPosition
  is_eof : Bool
  last_seen_closed : String
  counter : Int

namespace DocumentState

/-- Source `DocumentState::new`: empty maps (reads default to 0), no controls. -/
def new : DocumentState :=
  { states := fun _ => 0
    positions := fun _ => -1
    controls := []
    is_eof := false
    last_seen_closed := ""
    counter := 0 }

/-- Source `is_in`: positive depth for the given element name. -/
def is_in (self : DocumentState) (key : String) : Bool :=
  decide (0 < self.states key)

/-- Source `is_at`: inside the element, or the element is the one just closed. -/
def is_at (self : DocumentState) (key : String) : Bool :=
  self.is_in key || key == self.last_seen_closed

/-- Source `DocumentState::consume`: one step of the scanner/indexer.  The
`last_seen_closed` marker is reset at every event and re-set by `End`;
the depth decrement of an `End` event happens after its control updates,
and the counter advances last, exactly as in the source. -/
def consume (self : DocumentState) (event : Event) : DocumentState :=
  match event with
  | Event.start name _attrs =>
    let st : DocumentState :=
      { self with
        last_seen_closed := ""
        states := update_fn self.states name (self.states name + 1)
        positions := update_fn self.positions name self.counter }
    let st :=
      if name = "w:sdt" then
        { st with controls :=
            (st.controls ++ [{ ContentControlPosition.new with «begin» := self.counter }]) }
      else if name = "w:sdtContent" then
        { st with controls :=
            (update_last_matching (fun c => !c.content_opened)
              (fun c => { c with content_begin := self.counter }) st.controls) }
      else if name = "w:p" then
        if st.is_in "w:sdtContent" then
          { st with controls :=
              (update_last (fun c => { c with contains_paragraph := true }) st.controls) }
        else st
      else if name = "w:rPr" then
        if st.is_in "w:sdtContent" && st.is_in "w:r" then
          { st with controls :=
              (update_last (fun c =>
                if c.run_params_start < 0 then { c with run_params_start := self.counter }
                else c) st.controls) }
        else st
      else if name = "w:pPr" then
        if st.is_in "w:sdtContent" && st.is_in "w:p" then
          { st with controls :=
              (update_last (fun c =>
                if c.paragraph_params_start < 0 then { c with paragraph_params_start := self.counter }
                else c) st.controls) }
        else st
      else st
    { st with counter := self.counter + 1 }
  | Event.«end» name =>
    let st : DocumentState := { self with last_seen_closed := name }
    let st :=
      if name = "w:sdt" then
        { st with controls :=
            (update_last_matching (fun c => !c.closed)
              (fun c =>
                { c with
                  «end» := self.counter
                  type :=
                    (match c.type with
                     | ContentControlType.unsupported => ContentControlType.richText
                     | t => t) }) st.controls) }
      else if name = "w:sdtContent" then
        { st with controls :=
            (update_last_matching (fun c => !c.content_closed)
              (fun c => { c with content_end := self.counter }) st.controls) }
      else if name = "w:rPr" then
        if st.is_in "w:sdtContent" && st.is_in "w:r" then
          { st with controls :=
              (update_last (fun c =>
                if c.run_params_end < 0 then { c with run_params_end := self.counter + 1 }
                else c) st.controls) }
        else st
      else if name = "w:pPr" then
        if st.is_in "w:sdtContent" && st.is_in "w:p" then
          { st with controls :=
              (update_last (fun c =>
                if c.paragraph_params_end < 0 then { c with paragraph_params_end := self.counter + 1 }
                else c) st.controls) }
        else st
      else st
    { st with
      states := update_fn st.states name (self.states name - 1)
      counter := self.counter + 1 }
  | Event.empty name attrs =>
    let st : DocumentState := { self with last_seen_closed := "" }
    let st :=
      if st.is_in "w:sdtPr" then
        match ContentControlType.parse_string name with
        | some t =>
          { st with controls :=
              (update_last_matching (fun c => c.intersects_header self.counter)
                (fun c => { c with type := t }) st.controls) }
        | none =>
          if name = "w:tag" then
            { st with controls :=
                (update_last (fun c =>
                  attrs.foldl (fun acc attr =>
                    if attr.1 = "w:val" then { acc with tag := attr.2 } else acc) c) st.controls) }
          else st
      else st
    { st with counter := self.counter + 1 }
  | Event.text _ => { self with last_seen_closed := "", counter := self.counter + 1 }
  | Event.other _ => { self with last_seen_closed := "", counter := self.counter + 1 }
  | Event.eof => { self with last_seen_closed := "", is_eof := true, counter := self.counter + 1 }

end DocumentState

/-- The buffered event sequence of a part: the reader is pulled until its
first `Eof`, and every pulled event, the `Eof` included, is pushed. -/
def buffer_events (raw : List Event) : List Event :=
  raw.takeWhile (fun e => !e.is_eof) ++ [Event.eof]

/-- Run the scanner/indexer over a whole event sequence. -/
def run_state (events : List Event) : DocumentState :=
  events.foldl DocumentState.consume DocumentState.new

/-- The position list the indexer produces for an event sequence. -/
def index_controls (events : List Event) : List ContentControlPosition :=
  (run_state events).controls

/-- Source `get_tag_types`: collect the names of all `Start` and `Empty` events of
a replacement fragment, at any nesting depth (the source pulls every event
of the fragment reader). -/
def get_tag_types (content : List Event) : List String :=
  content.foldl (fun acc e =>
    match e with
    | Event.start n _ => acc ++ [n]
    | Event.empty n _ => acc ++ [n]
    | _ => acc) []

/-- Source `write_parsed_content`: replay every event of the fragment through the
writer (the loop stops at the fragment's `Eof`). -/
def write_parsed_content (content : List Event) : List Event :=
  content.takeWhile (fun e => !e.is_eof)

/-- The formatting events replayed inside a freshly created `w:p` or `w:r`
wrapper: the cached paragraph-params (resp. run-params) slice. -/
def wrap_params_events (control : ContentControlPosition) (events : List Event)
    (tag : String) : List Event :=
  if tag = "w:p" then
    if control.has_paragraph_params then
      write_events (slice_events events control.paragraph_params_start control.paragraph_params_end)
    else []
  else if tag = "w:r" then
    if control.has_run_params then
      write_events (slice_events events control.run_params_start control.run_params_end)
    else []
  else []

/-- Source `write_wrap_tags`: peel the wrapping ladder; if the head tag occurs among
the fragment's collected tag names, write the fragment verbatim, otherwise
emit the wrapper element (replaying cached params for `w:p`/`w:r`) and
recurse. -/
def write_wrap_tags (control : ContentControlPosition) (content : List Event)
    (tags : List String) (events : List Event) : List Event :=
  match tags with
  | [] => write_parsed_content content
  | tag :: rest =>
    if (get_tag_types content).contains tag then
      write_parsed_content content
    else
      Event.start tag [] ::
        (wrap_params_events control events tag ++
          write_wrap_tags control content rest events ++ [Event.«end» tag])

/-- Source `write_content`: choose the ladder from `contains_paragraph`. -/
def write_content (control : ContentControlPosition) (content : List Event)
    (events : List Event) : List Event :=
  if control.contains_paragraph then
    write_wrap_tags control content ["w:p", "w:r", "w:t"] events
  else
    write_wrap_tags control content ["w:r", "w:t"] events

/-- Source `get_intersecting_control_position`: the first control in list order
whose content range contains the index. -/
def get_intersecting_control_position (index : Int)
    (controls : List ContentControlPosition) : Option ContentControlPosition :=
  find_first (fun c => c.intersects_content index) controls

/-- Source `get_contained_control`: the controls whose `[begin, end]` lies inside
the given control's content range. -/
def get_contained_control (controls : List ContentControlPosition)
    (control : ContentControlPosition) : List ContentControlPosition :=
  controls.filter (fun c =>
    decide (control.content_begin ≤ c.«begin») && decide (c.«end» ≤ control.content_end))

/-- Source `get_contained_control_at`: the first contained control whose content
range contains the index. -/
def get_contained_control_at (controls : List ContentControlPosition)
    (control : ContentControlPosition) (index : Int) : Option ContentControlPosition :=
  find_first (fun c => c.intersects_content index) (get_contained_control controls control)

/-- The resolver `mapping.get(tag).map(String::as_str).unwrap_or(MISSING_STR)`
used at both substitution sites. -/
def resolve (mapping : Mapping) (tag : String) : String :=
  (lookup_assoc tag mapping).getD MISSING_STR

/-- One repeating-section instance: find the first contained
`RepeatingSectionItem`, then replay its inclusive event range, substituting
at each contained control's `content_begin` and skipping governed body
events.  `pf` parses a replacement fragment string into events. -/
def repeat_instance (events : List Event) (controls : List ContentControlPosition)
    (control : ContentControlPosition) (pf : String → List Event)
    (new_value : Mapping) : List Event :=
  match find_first (fun c => c.type == ContentControlType.repeatingSectionItem)
      (get_contained_control controls control) with
  | some section_item =>
    concat_map (fun i_item =>
      let ev_item := get_event events i_item
      match get_contained_control_at controls section_item i_item with
      | some ctrl_item =>
        if ctrl_item.content_begin = i_item then
          write_event ev_item ++
            write_content ctrl_item (pf (resolve new_value ctrl_item.tag)) events
        else []
      | none => write_event ev_item)
      (int_range section_item.«begin» (section_item.«end» + 1))
  | none => []

/-- The replacement payload written right after a governing control\'s
`content_begin` event: dispatch on the control\'s kind. -/
def map_replacement (events : List Event) (controls : List ContentControlPosition)
    (mappings : Mapping) (repeat_mappings : RepeatMapping)
    (pf : String → List Event) (control : ContentControlPosition) : List Event :=
  match control.type with
  | ContentControlType.repeatingSection =>
    concat_map (repeat_instance events controls control pf)
      ((lookup_assoc control.tag repeat_mappings).getD [])
  | _ => write_content control (pf (resolve mappings control.tag)) events

/-- The body of the per-event loop of `map_content_controls`. -/
def map_step (events : List Event) (controls : List ContentControlPosition)
    (mappings : Mapping) (repeat_mappings : RepeatMapping)
    (pf : String → List Event) (ie : Nat × Event) : List Event :=
  match get_intersecting_control_position (Int.ofNat ie.1) controls with
  | some control =>
    if control.content_begin = Int.ofNat ie.1 then
      write_event ie.2 ++ map_replacement events controls mappings repeat_mappings pf control
    else []
  | none => write_event ie.2

/-- The rewritten event stream of one part under `map_content_controls`. -/
def map_part (events : List Event) (controls : List ContentControlPosition)
    (mappings : Mapping) (repeat_mappings : RepeatMapping)
    (pf : String → List Event) : List Event :=
  concat_map (map_step events controls mappings repeat_mappings pf) (enum_from 0 events)

/-- One step of the stripper: consume the event, then keep it unless it is
SDT framing or lies at `w:sdtPr` (the check reads the post-consume state,
as in the source). -/
def strip_step (acc : DocumentState × List Event) (e : Event) :
    DocumentState × List Event :=
  let st := acc.1.consume e
  let keep : Bool :=
    match e with
    | Event.start name _ =>
      decide (name ≠ "w:sdtContent") && decide (name ≠ "w:sdt") && !(st.is_at "w:sdtPr")
    | Event.«end» name =>
      decide (name ≠ "w:sdtContent") && decide (name ≠ "w:sdt") && !(st.is_at "w:sdtPr")
    | _ => !(st.is_at "w:sdtPr")
  (st, if keep then acc.2 ++ write_event e else acc.2)

/-- The rewritten event stream of one part under `remove_content_controls`. -/
def strip_events (events : List Event) : List Event :=
  (events.foldl strip_step (DocumentState.new, [])).2

/-- Source `DocumentData`: the buffered events of a part plus its position list. -/
structure DocumentData where
  events : List Event
  control_positions : List ContentControlPosition

/-- Source `get_content_controls`: index every part that contains `<w:sdt>`,
skipping the rest.  `parse` is the external XML reader for a part's bytes. -/
def get_content_controls (parse : ByteSeq → List Event) (data : ZipData) :
    List (String × DocumentData) :=
  data.filterMap (fun nb =>
    if has_content_control nb.2 then
      let evs := buffer_events (parse nb.2)
      some (nb.1, { events := evs, control_positions := index_controls evs })
    else none)

/-- Source `map_content_controls`: per part, rewrite through `map_part` when the
part was indexed, otherwise copy the bytes unchanged.  `serialize` is the
external writer from events back to bytes. -/
def map_content_controls (pf : String → List Event) (serialize : List Event → ByteSeq)
    (data : ZipData) (controlled : List (String × DocumentData))
    (mappings : Mapping) (repeat_mappings : RepeatMapping) : ZipData :=
  data.map (fun nb =>
    match lookup_assoc nb.1 controlled with
    | some doc =>
      (nb.1, serialize (map_part doc.events doc.control_positions mappings repeat_mappings pf))
    | none => nb)

/-- Source `remove_content_controls`: per part, strip SDT framing when the part
contains `<w:sdt>`, otherwise copy the bytes unchanged. -/
def remove_content_controls (parse : ByteSeq → List Event)
    (serialize : List Event → ByteSeq) (data : ZipData) : ZipData :=
  data.map (fun nb =>
    if has_content_control nb.2 then
      (nb.1, serialize (strip_events (buffer_events (parse nb.2))))
    else nb)


/-! Claim-worded variants.  Each of the following definitions follows the
words of a spec claim rather than the source, to be compared with the
source-derived definitions above. -/

/-- Top-level element names of a fragment (depth-0 `Start`/`Empty` events),
as claim C2 words the tag scan. -/
def get_top_level_tag_types (content : List Event) : List String :=
  (content.foldl (fun (acc : Int × List String) e =>
    match e with
    | Event.start n _ => (acc.1 + 1, if acc.1 = 0 then acc.2 ++ [n] else acc.2)
    | Event.«end» _ => (acc.1 - 1, acc.2)
    | Event.empty n _ => (acc.1, if acc.1 = 0 then acc.2 ++ [n] else acc.2)
    | _ => acc) ((0 : Int), ([] : List String))).2

/-- The wrapping writer as claim C2 words it: the verbatim short-circuit
fires when the expected tag is present at top level of the fragment. -/
def write_wrap_tags_topLevel (control : ContentControlPosition) (content : List Event)
    (tags : List String) (events : List Event) : List Event :=
  match tags with
  | [] => write_parsed_content content
  | tag :: rest =>
    if (get_top_level_tag_types content).contains tag then
      write_parsed_content content
    else
      Event.start tag [] ::
        (wrap_params_events control events tag ++
          write_wrap_tags_topLevel control content rest events ++ [Event.«end» tag])

/-- Nested wrapping in a given list of ladder tags: used to state that a
replacement ends up wrapped in exactly a prefix of the ladder. -/
def nest_wrap (control : ContentControlPosition) (events : List Event) :
    List String → List Event → List Event
  | [], inner => inner
  | t :: ts, inner =>
    Event.start t [] ::
      (wrap_params_events control events t ++ nest_wrap control events ts inner ++ [Event.«end» t])

/-- The governing-position rule as claim C1 words it: the innermost indexed
position whose content range contains the index.  Positions are listed in
`begin` order, so under nesting the innermost containing position is the
last matching one. -/
def innermost_intersecting (index : Int) (controls : List ContentControlPosition) :
    Option ContentControlPosition :=
  (controls.filter (fun c => c.intersects_content index)).getLast?

/-- The per-event loop body with claim C1's innermost selection rule in
place of the source's first-match rule; otherwise identical. -/
def map_step_innermost (events : List Event) (controls : List ContentControlPosition)
    (mappings : Mapping) (repeat_mappings : RepeatMapping)
    (pf : String → List Event) (ie : Nat × Event) : List Event :=
  match innermost_intersecting (Int.ofNat ie.1) controls with
  | some control =>
    if control.content_begin = Int.ofNat ie.1 then
      write_event ie.2 ++ map_replacement events controls mappings repeat_mappings pf control
    else []
  | none => write_event ie.2

/-- The per-part rewrite under claim C1's innermost selection rule. -/
def map_part_innermost (events : List Event) (controls : List ContentControlPosition)
    (mappings : Mapping) (repeat_mappings : RepeatMapping)
    (pf : String → List Event) : List Event :=
  concat_map (map_step_innermost events controls mappings repeat_mappings pf) (enum_from 0 events)

/-- The inclusive event range `[a, b]` of claim C3. -/
def closed_range (a b : Int) : List Int :=
  (List.range (b + 1 - a).toNat).map (fun k => a + (k : Int))

/-- Claim C3's literal copy of the item template under one sub-mapping:
each index of the inclusive range is replayed, except that a contained
control's `content_begin` keeps its event and then substitutes the resolved
value through `write_content`, while other governed indices are dropped. -/
def copy_with_substitution (events : List Event) (controls : List ContentControlPosition)
    (section_item : ContentControlPosition) (pf : String → List Event)
    (v : Mapping) : List Event :=
  concat_map (fun j =>
    match get_contained_control_at controls section_item j with
    | some g =>
      if g.content_begin = j then
        write_event (get_event events j) ++ write_content g (pf (resolve v g.tag)) events
      else []
    | none => write_event (get_event events j))
    (closed_range section_item.«begin» section_item.«end»)

/-- Claim C3's account of the repeating-section handler: the first
`RepeatingSectionItem` child serves as the template, and each sub-mapping
in order produces one substituted copy of it. -/
def repeat_section_claim (events : List Event) (controls : List ContentControlPosition)
    (control : ContentControlPosition) (pf : String → List Event)
    (values : List Mapping) : List Event :=
  match find_first (fun c => c.type == ContentControlType.repeatingSectionItem)
      (get_contained_control controls control) with
  | some section_item =>
    concat_map (copy_with_substitution events controls section_item pf) values
  | none => []

/-- Stack-based well-formedness check of an event sequence: starts and ends
are properly nested and matched; other events are ignored. -/
def balanced_from : List String → List Event → Bool
  | stack, [] => stack.isEmpty
  | stack, e :: rest =>
    match e with
    | Event.start n _ => balanced_from (n :: stack) rest
    | Event.«end» n =>
      match stack with
      | m :: ms => m == n && balanced_from ms rest
      | [] => false
    | _ => balanced_from stack rest

/-- An event sequence is well-formed XML when its tags balance. -/
def balanced (events : List Event) : Bool :=
  balanced_from [] events

/-- All four offsets of a position are set. -/
def all_offsets_set (p : ContentControlPosition) : Bool :=
  decide (p.«begin» ≠ -1) && decide (p.content_begin ≠ -1) &&
    decide (p.content_end ≠ -1) && decide (p.«end» ≠ -1)

/-- The offset chain `begin < content_begin < content_end < end` of claim C4. -/
def offsets_chain (p : ContentControlPosition) : Bool :=
  decide (p.«begin» < p.content_begin) && decide (p.content_begin < p.content_end) &&
    decide (p.content_end < p.«end»)

/-- The invariant maintained by the indexer across `consume` steps: begins
are strictly increasing and bounded by the counter, and a set
`content_begin` lies strictly after its `begin`. -/
def positions_inv (controls : List ContentControlPosition) (counter : Int) : Prop :=
  List.Pairwise (· < ·) (controls.map (fun c => c.«begin»)) ∧
    (∀ b ∈ controls.map (fun c => c.«begin»), b < counter) ∧
    (∀ p ∈ controls, p.content_begin ≠ -1 → p.«begin» < p.content_begin)

/-- The indexer invariant read off a tracker state. -/
def state_inv (st : DocumentState) : Prop :=
  positions_inv st.controls st.counter

/-! Concrete fixtures used by counterexamples and witnesses. -/

/-- A fragment reader for witnesses: a fragment string parses to one text
event holding it. -/
def pf_text : String → List Event := fun s => [Event.text s]

/-- Two nested rich-text SDTs: the inner body is inside the outer body. -/
def exNested : List Event :=
  [Event.start "w:sdt" [], Event.start "w:sdtContent" [],
   Event.start "w:sdt" [], Event.start "w:sdtContent" [],
   Event.text "x", Event.«end» "w:sdtContent", Event.«end» "w:sdt",
   Event.«end» "w:sdtContent", Event.«end» "w:sdt", Event.eof]

/-- A well-formed sequence in which an SDT without its own `w:sdtContent`
sits next to a sibling `w:sdtContent` inside an outer SDT. -/
def exC4 : List Event :=
  [Event.start "w:sdt" [], Event.start "w:sdt" [], Event.«end» "w:sdt",
   Event.start "w:sdtContent" [], Event.«end» "w:sdtContent",
   Event.«end» "w:sdt", Event.eof]

/-- A well-formed sequence with a degenerate SDT (no body) nested inside
another SDT's content. -/
def exC9 : List Event :=
  [Event.start "w:sdt" [], Event.start "w:sdtContent" [],
   Event.start "w:sdt" [], Event.«end» "w:sdt",
   Event.«end» "w:sdtContent", Event.«end» "w:sdt", Event.eof]

/-- A repeating section tagged `Entry` whose item template holds one text
control tagged `Town`. -/
def exRepeat : List Event :=
  [Event.start "w:sdt" [], Event.start "w:sdtPr" [],
   Event.empty "w15:repeatingSection" [], Event.empty "w:tag" [("w:val", "Entry")],
   Event.«end» "w:sdtPr", Event.start "w:sdtContent" [],
   Event.start "w:sdt" [], Event.start "w:sdtPr" [],
   Event.empty "w15:repeatingSectionItem" [], Event.«end» "w:sdtPr",
   Event.start "w:sdtContent" [],
   Event.start "w:sdt" [], Event.start "w:sdtPr" [],
   Event.empty "w:text" [], Event.empty "w:tag" [("w:val", "Town")],
   Event.«end» "w:sdtPr", Event.start "w:sdtContent" [],
   Event.start "w:r" [], Event.start "w:t" [], Event.text "old",
   Event.«end» "w:t", Event.«end» "w:r", Event.«end» "w:sdtContent",
   Event.«end» "w:sdt", Event.«end» "w:sdtContent", Event.«end» "w:sdt",
   Event.«end» "w:sdtContent", Event.«end» "w:sdt", Event.eof]

/-- A repeating section tagged `E` that contains no repeating-section item. -/
def exNoItem : List Event :=
  [Event.start "w:sdt" [], Event.start "w:sdtPr" [],
   Event.empty "w15:repeatingSection" [], Event.empty "w:tag" [("w:val", "E")],
   Event.«end» "w:sdtPr", Event.start "w:sdtContent" [],
   Event.start "w:r" [], Event.«end» "w:r",
   Event.«end» "w:sdtContent", Event.«end» "w:sdt", Event.eof]

/-- A replacement fragment whose `w:r` occurs only nested inside `w:tbl`,
never at top level. -/
def exFragNestedRun : List Event :=
  [Event.start "w:tbl" [], Event.empty "w:r" [], Event.«end» "w:tbl"]


/-- The outer position the indexer produces for `exNested`. -/
def exNestedA : ContentControlPosition :=
  { ContentControlPosition.new with
    type := ContentControlType.richText, «begin» := 0, «end» := 8,
    content_begin := 1, content_end := 7 }

/-- The position of `exC4` whose offsets violate the chain. -/
def exC4B : ContentControlPosition :=
  { ContentControlPosition.new with
    type := ContentControlType.richText, «begin» := 1, «end» := 2,
    content_begin := 3, content_end := 4 }

/-- The repeating-section position the indexer produces for `exRepeat`. -/
def exRepeatP : ContentControlPosition :=
  { ContentControlPosition.new with
    type := ContentControlType.repeatingSection, tag := "Entry",
    «begin» := 0, «end» := 27, content_begin := 5, content_end := 26 }

/-- A repeat mapping giving two rows for the `Entry` section. -/
def exRepeatRM : RepeatMapping :=
  [("Entry", [[("Town", "Cottbus")], [("Town", "Aachen")]])]

/-- The repeating-section position the indexer produces for `exNoItem`. -/
def exNoItemP : ContentControlPosition :=
  { ContentControlPosition.new with
    type := ContentControlType.repeatingSection, tag := "E",
    «begin» := 0, «end» := 9, content_begin := 5, content_end := 8 }

/-- A repeat mapping for the itemless section of `exNoItem`. -/
def exNoItemRM : RepeatMapping := [("E", [[("Town", "X")]])]

/-- A tracker state inside `w:sdtContent`, `w:r` and `w:p`, holding one
still-open control, as reached mid-scan. -/
def exMidState : DocumentState :=
  { states := fun k =>
      if k = "w:sdtContent" then 1 else if k = "w:r" then 1 else
        if k = "w:p" then 1 else if k = "w:sdt" then 1 else 0
    positions := fun _ => -1
    controls := [{ ContentControlPosition.new with «begin» := 0, content_begin := 4 }]
    is_eof := false
    last_seen_closed := ""
    counter := 7 }

/-- The single control of `exMidState`. -/
def exMidControl : ContentControlPosition :=
  { ContentControlPosition.new with «begin» := 0, content_begin := 4 }

/-- A control with cached paragraph-params and run-params ranges. -/
def exWrapControl : ContentControlPosition :=
  { ContentControlPosition.new with
    «begin» := 0, «end» := 9, content_begin := 1, content_end := 8,
    contains_paragraph := true,
    paragraph_params_start := 2, paragraph_params_end := 4,
    run_params_start := 3, run_params_end := 5 }

/-- An event buffer for replaying cached parameter slices. -/
def exWrapEvents : List Event :=
  [Event.text "e0", Event.text "e1", Event.text "e2", Event.text "e3",
   Event.text "e4", Event.text "e5"]

/-- A one-part blob store whose part does not contain `<w:sdt>`. -/
def exPlainData : ZipData := [("word/document.xml", [60, 97, 62])]



/-! Helper lemmas about the list combinators. -/

theorem find_first_eq_none {α : Type} (p : α → Bool) (l : List α) :
    find_first p l = none ↔ ∀ x ∈ l, p x = false := by
  induction l with
  | nil => simp [find_first]
  | cons x xs ih =>
    by_cases h : p x <;> simp [find_first, h, ih]

theorem find_first_eq_some {α : Type} (p : α → Bool) (l : List α) (a : α) :
    find_first p l = some a ↔
      p a = true ∧ ∃ l1 l2, l = l1 ++ a :: l2 ∧ ∀ x ∈ l1, p x = false := by
  induction l with
  | nil => simp [find_first]
  | cons x xs ih =>
    by_cases h : p x
    · simp only [find_first, h, if_pos rfl]
      constructor
      · rintro hx
        injection hx with hx
        subst hx
        exact ⟨h, [], xs, rfl, by simp⟩
      · rintro ⟨hpa, l1, l2, hsplit, hnone⟩
        match l1, hsplit with
        | [], hsplit => simp at hsplit; simp [hsplit.1]
        | y :: l1, hsplit =>
          simp at hsplit
          rcases hsplit with ⟨rfl, _⟩
          have := hnone x (by simp)
          rw [this] at h
          cases h
    · replace h : p x = false := by simpa using h
      have hstep : find_first p (x :: xs) = find_first p xs := by simp [find_first, h]
      rw [hstep, ih]
      constructor
      · rintro ⟨hpa, l1, l2, rfl, hnone⟩
        exact ⟨hpa, x :: l1, l2, rfl, by
          intro z hz
          rcases List.mem_cons.mp hz with rfl | hz
          · exact h
          · exact hnone z hz⟩
      · rintro ⟨hpa, l1, l2, hsplit, hnone⟩
        match l1, hsplit with
        | [], hsplit =>
          simp at hsplit
          rcases hsplit with ⟨rfl, _⟩
          rw [hpa] at h
          cases h
        | y :: l1, hsplit =>
          simp at hsplit
          rcases hsplit with ⟨rfl, rfl⟩
          exact ⟨hpa, l1, l2, rfl, fun z hz => hnone z (by simp [hz])⟩

theorem concat_map_eq_nil {α β : Type} (f : α → List β) (l : List α)
    (h : ∀ x ∈ l, f x = []) : concat_map f l = [] := by
  induction l with
  | nil => rfl
  | cons x xs ih =>
    simp [concat_map, h x (by simp)]
    exact ih (fun z hz => h z (by simp [hz]))

theorem concat_map_congr {α β : Type} (f g : α → List β) (l : List α)
    (h : ∀ x ∈ l, f x = g x) : concat_map f l = concat_map g l := by
  induction l with
  | nil => rfl
  | cons x xs ih =>
    simp only [concat_map, h x (by simp)]
    rw [ih (fun z hz => h z (by simp [hz]))]

theorem update_last_append_one {α : Type} (f : α → α) (l : List α) (c : α) :
    update_last f (l ++ [c]) = l ++ [f c] := by
  induction l with
  | nil => rfl
  | cons x xs ih =>
    cases xs with
    | nil => simp [update_last]
    | cons y ys => simpa [update_last] using ih

theorem update_last_matching_map {α β : Type} (p : α → Bool) (f : α → α)
    (g : α → β) (l : List α) (h : ∀ x, p x = true → g (f x) = g x) :
    (update_last_matching p f l).map g = l.map g := by
  induction l with
  | nil => rfl
  | cons x xs ih =>
    by_cases hx : xs.any p
    · simp [update_last_matching, hx, ih]
    · by_cases hpx : p x
      · simp [update_last_matching, hx, hpx, h x hpx]
      · simp [update_last_matching, hx, hpx]

theorem update_last_map {α β : Type} (f : α → α) (g : α → β) (l : List α)
    (h : ∀ x, g (f x) = g x) : (update_last f l).map g = l.map g := by
  induction l with
  | nil => rfl
  | cons x xs ih =>
    cases xs with
    | nil => simp [update_last, h]
    | cons y ys => simpa [update_last] using ih

theorem update_last_matching_mem {α : Type} (p : α → Bool) (f : α → α)
    (l : List α) (y : α) (hy : y ∈ update_last_matching p f l) :
    y ∈ l ∨ ∃ x, x ∈ l ∧ p x = true ∧ y = f x := by
  induction l with
  | nil => cases hy
  | cons x xs ih =>
    by_cases hx : xs.any p
    · rw [update_last_matching, if_pos hx] at hy
      rcases List.mem_cons.mp hy with rfl | hy
      · exact Or.inl (by simp)
      · rcases ih hy with h | ⟨z, hz, hpz, rfl⟩
        · exact Or.inl (by simp [h])
        · exact Or.inr ⟨z, by simp [hz], hpz, rfl⟩
    · by_cases hpx : p x
      · rw [update_last_matching, if_neg hx, if_pos hpx] at hy
        rcases List.mem_cons.mp hy with rfl | hy
        · exact Or.inr ⟨x, by simp, hpx, rfl⟩
        · exact Or.inl (by simp [hy])
      · rw [update_last_matching, if_neg hx, if_neg hpx] at hy
        exact Or.inl hy

theorem update_last_mem {α : Type} (f : α → α) (l : List α) (y : α)
    (hy : y ∈ update_last f l) : y ∈ l ∨ ∃ x, x ∈ l ∧ y = f x := by
  induction l with
  | nil => cases hy
  | cons x xs ih =>
    cases xs with
    | nil =>
      simp [update_last] at hy
      exact Or.inr ⟨x, by simp, hy⟩
    | cons z zs =>
      rw [update_last] at hy
      rcases List.mem_cons.mp hy with rfl | hy
      · exact Or.inl (by simp)
      · rcases ih hy with h | ⟨w, hw, rfl⟩
        · exact Or.inl (by simp [h])
        · exact Or.inr ⟨w, by simp [hw], rfl⟩


/-! Claim theorems. -/

/-- Claim C2 (amended): `write_wrap_tags` collects the set of ALL element
names occurring in the replacement fragment (`Start` and `Empty` events at
any depth, not only top level); it writes the fragment verbatim as soon as
the current ladder tag is in that set, otherwise emits the wrapping tag and
recurses — so the replacement ends up wrapped in exactly the longest prefix
of the ladder whose tags are absent from the fragment. -/
theorem c2_wrap_ladder (control : ContentControlPosition) (content : List Event)
    (tags : List String) (events : List Event) :
    write_wrap_tags control content tags events =
      nest_wrap control events
        (tags.takeWhile (fun t => !(get_tag_types content).contains t))
        (write_parsed_content content) := by
  induction tags with
  | nil => rfl
  | cons t ts ih =>
    simp only [write_wrap_tags, List.takeWhile_cons]
    by_cases h : (get_tag_types content).contains t
    · have hm : t ∈ get_tag_types content := by simp at h; exact h
      rw [if_pos h, if_neg (by simp [hm] : ¬(!(get_tag_types content).contains t) = true)]
      rfl
    · replace h : (get_tag_types content).contains t = false := by simpa using h
      have hm : t ∉ get_tag_types content := by simp at h; exact h
      rw [if_neg (by simp [hm] : ¬(get_tag_types content).contains t = true),
        if_pos (by simp [hm] : (!(get_tag_types content).contains t) = true)]
      simp only [nest_wrap]
      rw [ih]

/-- Claim C2 counterexample: on a fragment whose `w:r` occurs only nested
inside `w:tbl`, the source writer (which scans names at any depth) emits the
fragment verbatim after one `w:p` wrapper, while the claim's top-level scan
would wrap it in `w:r` and `w:t` as well. -/
theorem c2_counterexample :
    write_wrap_tags ContentControlPosition.new exFragNestedRun ["w:p", "w:r", "w:t"] [] ≠
      write_wrap_tags_topLevel ContentControlPosition.new exFragNestedRun
        ["w:p", "w:r", "w:t"] [] := by decide

/-- Claim C1 (amended): the position governing event index `i` is the FIRST
position in list order (the outermost under proper nesting, not the
innermost) whose content range satisfies `content_begin <= i < content_end`,
or none; when a governing position exists and `i` differs from its
`content_begin` the event is suppressed, and when none exists the event is
emitted unchanged. -/
theorem c1_governing_first_in_order
    (events : List Event) (controls : List ContentControlPosition)
    (mappings : Mapping) (repeat_mappings : RepeatMapping) (pf : String → List Event)
    (i : Nat) (ev : Event) (P : ContentControlPosition) :
    (get_intersecting_control_position (Int.ofNat i) controls = some P ↔
      P.intersects_content (Int.ofNat i) = true ∧
        ∃ l1 l2, controls = l1 ++ P :: l2 ∧
          ∀ c ∈ l1, c.intersects_content (Int.ofNat i) = false) ∧
    (get_intersecting_control_position (Int.ofNat i) controls = some P →
      P.content_begin ≠ Int.ofNat i →
      map_step events controls mappings repeat_mappings pf (i, ev) = []) ∧
    (get_intersecting_control_position (Int.ofNat i) controls = none →
      map_step events controls mappings repeat_mappings pf (i, ev) = write_event ev) := by
  refine ⟨find_first_eq_some _ _ _, ?_, ?_⟩
  · intro h hne
    simp only [map_step]
    split
    · rename_i control heq
      rw [h] at heq
      injection heq with heq
      subst heq
      rw [if_neg hne]
    · rename_i heq
      rw [h] at heq
      cases heq
  · intro h
    simp only [map_step]
    split
    · rename_i control heq
      rw [h] at heq
      cases heq
    · rfl

/-- Claim C1 witness: on the nested fixture, index 2 is governed by the
outer position (whose body starts at 1), so its event is suppressed, while
index 0 is governed by nothing and passes through. -/
theorem c1_governing_first_in_order_witness :
    map_step exNested (index_controls exNested) [] [] pf_text
        (2, Event.start "w:sdt" []) = [] ∧
    map_step exNested (index_controls exNested) [] [] pf_text
        (0, Event.start "w:sdt" []) = [Event.start "w:sdt" []] :=
  ⟨(c1_governing_first_in_order exNested (index_controls exNested) [] [] pf_text
      2 (Event.start "w:sdt" []) exNestedA).2.1 (by decide) (by decide),
   (c1_governing_first_in_order exNested (index_controls exNested) [] [] pf_text
      0 (Event.start "w:sdt" []) exNestedA).2.2 (by decide)⟩

/-- Claim C1 counterexample: at index 4 of the nested fixture both indexed
positions' content ranges contain the index; the source selects the first
(outermost, begin 0), not the innermost (begin 2), and the innermost rule
would produce a different output stream. -/
theorem c1_counterexample :
    (get_intersecting_control_position 4 (index_controls exNested)).map
        (fun c => c.«begin») = some 0 ∧
    (innermost_intersecting 4 (index_controls exNested)).map
        (fun c => c.«begin») = some 2 ∧
    map_part exNested (index_controls exNested) [] [] pf_text ≠
      map_part_innermost exNested (index_controls exNested) [] [] pf_text := by decide


/-! Reduction lemmas for the per-event loop body. -/

theorem map_step_at (events : List Event) (controls : List ContentControlPosition)
    (mappings : Mapping) (repeat_mappings : RepeatMapping) (pf : String → List Event)
    (i : Nat) (ev : Event) (control : ContentControlPosition)
    (h : get_intersecting_control_position (Int.ofNat i) controls = some control)
    (hcb : control.content_begin = Int.ofNat i) :
    map_step events controls mappings repeat_mappings pf (i, ev) =
      write_event ev ++ map_replacement events controls mappings repeat_mappings pf control := by
  simp only [map_step]
  split
  · rename_i c heq
    rw [h] at heq
    injection heq with heq
    subst heq
    rw [if_pos hcb]
  · rename_i heq
    rw [h] at heq
    cases heq

theorem map_replacement_flat (events : List Event) (controls : List ContentControlPosition)
    (mappings : Mapping) (repeat_mappings : RepeatMapping) (pf : String → List Event)
    (control : ContentControlPosition)
    (hty : control.type ≠ ContentControlType.repeatingSection) :
    map_replacement events controls mappings repeat_mappings pf control =
      write_content control (pf (resolve mappings control.tag)) events := by
  cases h : control.type <;>
    first
    | exact absurd h hty
    | simp [map_replacement, h]

theorem map_replacement_repeat (events : List Event) (controls : List ContentControlPosition)
    (mappings : Mapping) (repeat_mappings : RepeatMapping) (pf : String → List Event)
    (control : ContentControlPosition)
    (hty : control.type = ContentControlType.repeatingSection) :
    map_replacement events controls mappings repeat_mappings pf control =
      concat_map (repeat_instance events controls control pf)
        ((lookup_assoc control.tag repeat_mappings).getD []) := by
  simp [map_replacement, hty]

/-- Claim C5: a control whose tag is absent from the flat mapping (the
empty-string tag included) is replaced by the literal string `MISSING`,
wrapped per the ladder rules, with no error; the same sentinel resolves a
grandchild tag absent from a repeating-section sub-mapping (`resolve` is
the resolver both substitution sites apply). -/
theorem c5_missing_tag_sentinel
    (events : List Event) (controls : List ContentControlPosition)
    (mappings : Mapping) (repeat_mappings : RepeatMapping) (pf : String → List Event)
    (i : Nat) (ev : Event) (control : ContentControlPosition) (v : Mapping) (t : String) :
    (lookup_assoc t mappings = none → resolve mappings t = MISSING_STR) ∧
    (lookup_assoc t v = none → resolve v t = MISSING_STR) ∧
    (get_intersecting_control_position (Int.ofNat i) controls = some control →
      control.content_begin = Int.ofNat i →
      control.type ≠ ContentControlType.repeatingSection →
      lookup_assoc control.tag mappings = none →
      map_step events controls mappings repeat_mappings pf (i, ev) =
        write_event ev ++ write_content control (pf MISSING_STR) events) := by
  refine ⟨?_, ?_, ?_⟩
  · intro h
    simp [resolve, h]
  · intro h
    simp [resolve, h]
  · intro hfind hcb hty hlk
    rw [map_step_at _ _ _ _ _ _ _ _ hfind hcb,
      map_replacement_flat _ _ _ _ _ _ hty]
    simp [resolve, hlk]

/-- Claim C5 witness: on the nested fixture the outer control has the empty
tag, absent from the mapping, and its replacement is the `MISSING` literal. -/
theorem c5_missing_tag_sentinel_witness :
    resolve [("x", "y")] "" = MISSING_STR ∧
    map_step exNested (index_controls exNested) [("x", "y")] [] pf_text
        (1, Event.start "w:sdtContent" []) =
      write_event (Event.start "w:sdtContent" []) ++
        write_content exNestedA (pf_text MISSING_STR) exNested :=
  ⟨(c5_missing_tag_sentinel exNested (index_controls exNested) [("x", "y")] [] pf_text
      1 (Event.start "w:sdtContent" []) exNestedA [] "").1 (by decide),
   (c5_missing_tag_sentinel exNested (index_controls exNested) [("x", "y")] [] pf_text
      1 (Event.start "w:sdtContent" []) exNestedA [] "").2.2
      (by decide) (by decide) (by decide) (by decide)⟩

/-- Claim C9 (amended): a position whose `content_begin` AND `content_end`
are both `-1` has an empty content range, so it never governs an event; an
event index no position's content range contains is emitted unchanged.  The
claim as stated fails when `content_end` is set while `content_begin` is
not (see the counterexample). -/
theorem c9_degenerate_no_intersection
    (p : ContentControlPosition) (idx : Int)
    (events : List Event) (controls : List ContentControlPosition)
    (mappings : Mapping) (repeat_mappings : RepeatMapping) (pf : String → List Event)
    (i : Nat) (ev : Event) :
    (p.content_begin = -1 → p.content_end = -1 → p.intersects_content idx = false) ∧
    ((∀ c ∈ controls, c.intersects_content (Int.ofNat i) = false) →
      map_step events controls mappings repeat_mappings pf (i, ev) = write_event ev) := by
  constructor
  · intro h1 h2
    simp [ContentControlPosition.intersects_content, h1, h2]
  · intro h
    have hn : get_intersecting_control_position (Int.ofNat i) controls = none :=
      (find_first_eq_none _ _).mpr h
    simp only [map_step]
    split
    · rename_i c heq
      rw [hn] at heq
      cases heq
    · rfl

/-- Claim C9 witness: a fresh position (all offsets `-1`) intersects no
index, and an event governed by no position passes through. -/
theorem c9_degenerate_no_intersection_witness :
    ContentControlPosition.new.intersects_content 0 = false ∧
    map_step [Event.text "x"] [ContentControlPosition.new] [] [] pf_text
        (0, Event.text "x") = write_event (Event.text "x") :=
  ⟨(c9_degenerate_no_intersection ContentControlPosition.new 0 [Event.text "x"]
      [ContentControlPosition.new] [] [] pf_text 0 (Event.text "x")).1 (by decide) (by decide),
   (c9_degenerate_no_intersection ContentControlPosition.new 0 [Event.text "x"]
      [ContentControlPosition.new] [] [] pf_text 0 (Event.text "x")).2
      (by intro c hc; simp at hc; subst hc; decide)⟩

/-- Claim C9 counterexample: on well-formed XML where a bodiless SDT sits
inside another SDT\'s content, the indexer assigns the outer `content_end`
to the inner position, leaving it with `content_begin = -1` but a
nonnegative `content_end`; indices DO intersect its content range and the
part\'s leading events are suppressed rather than emitted unchanged. -/
theorem c9_counterexample :
    balanced exC9 = true ∧
    ((index_controls exC9).any
      (fun p => p.content_begin == -1 && p.intersects_content 0)) = true ∧
    map_part exC9 (index_controls exC9) [] [] pf_text ≠ write_events exC9 := by decide

/-- Claim C10: a `RepeatingSection` position that contains no child of kind
`RepeatingSectionItem` emits nothing for any sub-mapping in its repeat
values, and no error is raised (the handler is total and yields the empty
event list, so the section body after `content_begin` disappears). -/
theorem c10_empty_section_no_item
    (events : List Event) (controls : List ContentControlPosition)
    (mappings : Mapping) (repeat_mappings : RepeatMapping) (pf : String → List Event)
    (i : Nat) (ev : Event) (control : ContentControlPosition) :
    get_intersecting_control_position (Int.ofNat i) controls = some control →
    control.content_begin = Int.ofNat i →
    control.type = ContentControlType.repeatingSection →
    find_first (fun c => c.type == ContentControlType.repeatingSectionItem)
        (get_contained_control controls control) = none →
    (∀ v, repeat_instance events controls control pf v = []) ∧
    map_step events controls mappings repeat_mappings pf (i, ev) = write_event ev := by
  intro hfind hcb hty hitem
  have hinst : ∀ v, repeat_instance events controls control pf v = [] := by
    intro v
    simp only [repeat_instance]
    split
    · rename_i item heq
      rw [hitem] at heq
      cases heq
    · rfl
  refine ⟨hinst, ?_⟩
  rw [map_step_at _ _ _ _ _ _ _ _ hfind hcb,
    map_replacement_repeat _ _ _ _ _ _ hty,
    concat_map_eq_nil _ _ (fun v _ => hinst v)]
  simp

/-- Claim C10 witness: the itemless repeating section of `exNoItem` emits
only its `content_begin` event; one sub-mapping row produces nothing. -/
theorem c10_empty_section_no_item_witness :
    repeat_instance exNoItem (index_controls exNoItem) exNoItemP pf_text
        [("Town", "X")] = [] ∧
    map_step exNoItem (index_controls exNoItem) [] exNoItemRM pf_text
        (5, Event.start "w:sdtContent" []) =
      write_event (Event.start "w:sdtContent" []) :=
  ⟨(c10_empty_section_no_item exNoItem (index_controls exNoItem) [] exNoItemRM pf_text
      5 (Event.start "w:sdtContent" []) exNoItemP
      (by decide) (by decide) (by decide) (by decide)).1 [("Town", "X")],
   (c10_empty_section_no_item exNoItem (index_controls exNoItem) [] exNoItemRM pf_text
      5 (Event.start "w:sdtContent" []) exNoItemP
      (by decide) (by decide) (by decide) (by decide)).2⟩


/-- The repeating-section handler of the source (item lookup inside the
per-value loop) coincides with claim C3\'s formulation (item looked up once,
then one substituted copy per sub-mapping). -/
theorem repeat_claim_eq (events : List Event) (controls : List ContentControlPosition)
    (control : ContentControlPosition) (pf : String → List Event)
    (values : List Mapping) :
    concat_map (repeat_instance events controls control pf) values =
      repeat_section_claim events controls control pf values := by
  simp only [repeat_section_claim]
  split
  · rename_i item heq
    refine concat_map_congr _ _ _ ?_
    intro v _
    simp only [repeat_instance]
    split
    · rename_i item2 heq2
      rw [heq] at heq2
      injection heq2 with heq2
      subst heq2
      have hr : int_range item.«begin» (item.«end» + 1) =
          closed_range item.«begin» item.«end» := rfl
      rw [hr]
      simp only [copy_with_substitution]
    · rename_i heq2
      rw [heq] at heq2
      cases heq2
  · rename_i heq
    refine concat_map_eq_nil _ _ ?_
    intro v _
    simp only [repeat_instance]
    split
    · rename_i item2 heq2
      rw [heq] at heq2
      cases heq2
    · rfl

/-- Claim C3: at a governed `RepeatingSection` position\'s `content_begin`,
the writer emits the event and then, for each sub-mapping in the repeat
values in order, one literal copy of the inclusive event range of the first
`RepeatingSectionItem` child, substituting `v[tag]` (or `MISSING`) through
`write_content` at each grandchild\'s `content_begin` and skipping governed
body events; all other governed body indices of the part contribute
nothing. -/
theorem c3_repeating_section_expansion
    (events : List Event) (controls : List ContentControlPosition)
    (mappings : Mapping) (repeat_mappings : RepeatMapping) (pf : String → List Event)
    (i : Nat) (ev : Event) (control : ContentControlPosition) :
    get_intersecting_control_position (Int.ofNat i) controls = some control →
    control.content_begin = Int.ofNat i →
    control.type = ContentControlType.repeatingSection →
    (map_step events controls mappings repeat_mappings pf (i, ev) =
      write_event ev ++
        repeat_section_claim events controls control pf
          ((lookup_assoc control.tag repeat_mappings).getD [])) ∧
    (∀ (j : Nat) (evj : Event) (Q : ContentControlPosition),
      get_intersecting_control_position (Int.ofNat j) controls = some Q →
      Q.content_begin ≠ Int.ofNat j →
      map_step events controls mappings repeat_mappings pf (j, evj) = []) := by
  intro h1 h2 h3
  constructor
  · rw [map_step_at _ _ _ _ _ _ _ _ h1 h2,
      map_replacement_repeat _ _ _ _ _ _ h3, repeat_claim_eq]
  · intro j evj Q hq hne
    simp only [map_step]
    split
    · rename_i c heq
      rw [hq] at heq
      injection heq with heq
      subst heq
      rw [if_neg hne]
    · rename_i heq
      rw [hq] at heq
      cases heq

/-- Claim C3 witness: the `Entry` section of `exRepeat` expands to one
substituted copy of its item per row of the repeat mapping, and a body
index away from `content_begin` (index 7) contributes nothing. -/
theorem c3_repeating_section_expansion_witness :
    map_step exRepeat (index_controls exRepeat) [] exRepeatRM pf_text
        (5, Event.start "w:sdtContent" []) =
      write_event (Event.start "w:sdtContent" []) ++
        repeat_section_claim exRepeat (index_controls exRepeat) exRepeatP pf_text
          ((lookup_assoc "Entry" exRepeatRM).getD []) ∧
    map_step exRepeat (index_controls exRepeat) [] exRepeatRM pf_text
        (7, Event.start "w:sdtPr" []) = [] :=
  ⟨(c3_repeating_section_expansion exRepeat (index_controls exRepeat) [] exRepeatRM pf_text
      5 (Event.start "w:sdtContent" []) exRepeatP (by decide) (by decide) (by decide)).1,
   (c3_repeating_section_expansion exRepeat (index_controls exRepeat) [] exRepeatRM pf_text
      5 (Event.start "w:sdtContent" []) exRepeatP (by decide) (by decide) (by decide)).2
      7 (Event.start "w:sdtPr" []) exRepeatP (by decide) (by decide)⟩

/-- Claim C7: on `End(w:rPr)` seen inside `w:sdtContent` and `w:r` while the
most recent position\'s `run_params_end` is negative, the indexer stores
`counter + 1` as the exclusive end (so the closing event is included in the
replayed range), and analogously for `w:pPr` inside `w:p`; and the writer,
when it emits a wrapping `w:p` (resp. `w:r`) element, first re-emits the
cached paragraph-params (resp. run-params) event slice before recursing on
the rest of the ladder. -/
theorem c7_param_ranges (st : DocumentState) (l : List ContentControlPosition)
    (c control : ContentControlPosition) (content : List Event) (rest : List String)
    (events : List Event) :
    (st.is_in "w:sdtContent" = true → st.is_in "w:r" = true → st.controls = l ++ [c] →
      c.run_params_end < 0 →
      (st.consume (Event.«end» "w:rPr")).controls =
        l ++ [{ c with run_params_end := st.counter + 1 }]) ∧
    (st.is_in "w:sdtContent" = true → st.is_in "w:p" = true → st.controls = l ++ [c] →
      c.paragraph_params_end < 0 →
      (st.consume (Event.«end» "w:pPr")).controls =
        l ++ [{ c with paragraph_params_end := st.counter + 1 }]) ∧
    ((get_tag_types content).contains "w:p" = false → control.has_paragraph_params = true →
      write_wrap_tags control content ("w:p" :: rest) events =
        Event.start "w:p" [] ::
          (write_events (slice_events events control.paragraph_params_start
              control.paragraph_params_end) ++
            write_wrap_tags control content rest events ++ [Event.«end» "w:p"])) ∧
    ((get_tag_types content).contains "w:r" = false → control.has_run_params = true →
      write_wrap_tags control content ("w:r" :: rest) events =
        Event.start "w:r" [] ::
          (write_events (slice_events events control.run_params_start
              control.run_params_end) ++
            write_wrap_tags control content rest events ++ [Event.«end» "w:r"])) := by
  refine ⟨?_, ?_, ?_, ?_⟩
  · intro h1 h2 hctr hrpe
    simp only [DocumentState.consume, DocumentState.is_in] at h1 h2 ⊢
    simp [h1, h2, hctr, update_last_append_one, hrpe]
  · intro h1 h2 hctr hppe
    simp only [DocumentState.consume, DocumentState.is_in] at h1 h2 ⊢
    simp [h1, h2, hctr, update_last_append_one, hppe]
  · intro hct hpp
    have hm : "w:p" ∉ get_tag_types content := by simp at hct; exact hct
    simp only [write_wrap_tags, wrap_params_events]
    rw [if_neg (by simp [hm] : ¬(get_tag_types content).contains "w:p" = true)]
    simp [hpp]
  · intro hct hrp
    have hm : "w:r" ∉ get_tag_types content := by simp at hct; exact hct
    simp only [write_wrap_tags, wrap_params_events]
    rw [if_neg (by simp [hm] : ¬(get_tag_types content).contains "w:r" = true)]
    simp [hrp]


/-- Claim C7 witness: from a mid-scan state at counter 7 inside
`w:sdtContent`, `w:r` and `w:p`, the closes of `w:rPr` and `w:pPr` store 8
as the exclusive end; and the wrappers replay the cached slices. -/
theorem c7_param_ranges_witness :
    (exMidState.consume (Event.«end» "w:rPr")).controls =
      [{ exMidControl with run_params_end := 8 }] ∧
    (exMidState.consume (Event.«end» "w:pPr")).controls =
      [{ exMidControl with paragraph_params_end := 8 }] ∧
    write_wrap_tags exWrapControl [Event.text "z"] ["w:p"] exWrapEvents =
      Event.start "w:p" [] ::
        (write_events (slice_events exWrapEvents 2 4) ++
          write_wrap_tags exWrapControl [Event.text "z"] [] exWrapEvents ++
          [Event.«end» "w:p"]) ∧
    write_wrap_tags exWrapControl [Event.text "z"] ["w:r"] exWrapEvents =
      Event.start "w:r" [] ::
        (write_events (slice_events exWrapEvents 3 5) ++
          write_wrap_tags exWrapControl [Event.text "z"] [] exWrapEvents ++
          [Event.«end» "w:r"]) :=
  ⟨(c7_param_ranges exMidState [] exMidControl exWrapControl [Event.text "z"] []
      exWrapEvents).1 (by decide) (by decide) rfl (by decide),
   (c7_param_ranges exMidState [] exMidControl exWrapControl [Event.text "z"] []
      exWrapEvents).2.1 (by decide) (by decide) rfl (by decide),
   (c7_param_ranges exMidState [] exMidControl exWrapControl [Event.text "z"] []
      exWrapEvents).2.2.1 (by decide) (by decide),
   (c7_param_ranges exMidState [] exMidControl exWrapControl [Event.text "z"] []
      exWrapEvents).2.2.2 (by decide) (by decide)⟩

/-! Orchestrator-level lookup lemmas. -/

theorem lookup_remove (parse : ByteSeq → List Event) (serialize : List Event → ByteSeq)
    (data : ZipData) (name : String) (bytes : ByteSeq)
    (h : lookup_assoc name data = some bytes) (hcc : has_content_control bytes = false) :
    lookup_assoc name (remove_content_controls parse serialize data) = some bytes := by
  induction data with
  | nil => cases h
  | cons nb rest ih =>
    simp only [lookup_assoc] at h
    simp only [remove_content_controls, List.map_cons]
    by_cases he : nb.1 = name
    · rw [if_pos he] at h
      injection h with h
      subst h
      rw [if_neg (by simp [hcc])]
      simp only [lookup_assoc]
      rw [if_pos he]
    · rw [if_neg he] at h
      have hrec := ih h
      simp only [remove_content_controls] at hrec
      by_cases hc2 : has_content_control nb.2
      · rw [if_pos hc2]
        simp only [lookup_assoc]
        rw [if_neg he]
        exact hrec
      · rw [if_neg hc2]
        simp only [lookup_assoc]
        rw [if_neg he]
        exact hrec

theorem lookup_gcc_not_key (parse : ByteSeq → List Event) (data : ZipData) (name : String)
    (h : name ∉ data.map Prod.fst) :
    lookup_assoc name (get_content_controls parse data) = none := by
  induction data with
  | nil => rfl
  | cons nb rest ih =>
    simp only [List.map_cons, List.mem_cons] at h
    push_neg at h
    obtain ⟨h1, h2⟩ := h
    simp only [get_content_controls, List.filterMap_cons]
    by_cases hc : has_content_control nb.2
    · rw [if_pos hc]
      simp only [lookup_assoc]
      rw [if_neg (fun heq => h1 heq.symm)]
      have hrec := ih h2
      simpa only [get_content_controls] using hrec
    · rw [if_neg hc]
      have hrec := ih h2
      simpa only [get_content_controls] using hrec

theorem lookup_gcc_none (parse : ByteSeq → List Event) (data : ZipData)
    (name : String) (bytes : ByteSeq)
    (hnd : (data.map Prod.fst).Nodup)
    (h : lookup_assoc name data = some bytes)
    (hcc : has_content_control bytes = false) :
    lookup_assoc name (get_content_controls parse data) = none := by
  induction data with
  | nil => cases h
  | cons nb rest ih =>
    simp only [List.map_cons, List.nodup_cons] at hnd
    obtain ⟨hk, hnd2⟩ := hnd
    simp only [lookup_assoc] at h
    simp only [get_content_controls, List.filterMap_cons]
    by_cases he : nb.1 = name
    · rw [if_pos he] at h
      injection h with h
      subst h
      rw [if_neg (by simp [hcc])]
      have : name ∉ rest.map Prod.fst := by
        rw [← he]
        exact hk
      simpa only [get_content_controls] using lookup_gcc_not_key parse rest name this
    · rw [if_neg he] at h
      have hrec := ih hnd2 h
      simp only [get_content_controls] at hrec
      by_cases hc : has_content_control nb.2
      · rw [if_pos hc]
        simp only [lookup_assoc]
        rw [if_neg he]
        exact hrec
      · rw [if_neg hc]
        exact hrec

theorem lookup_map_cc (pf : String → List Event) (serialize : List Event → ByteSeq)
    (data : ZipData) (controlled : List (String × DocumentData))
    (mappings : Mapping) (repeat_mappings : RepeatMapping)
    (name : String) (bytes : ByteSeq)
    (hc : lookup_assoc name controlled = none)
    (h : lookup_assoc name data = some bytes) :
    lookup_assoc name
      (map_content_controls pf serialize data controlled mappings repeat_mappings) =
        some bytes := by
  induction data with
  | nil => cases h
  | cons nb rest ih =>
    simp only [lookup_assoc] at h
    simp only [map_content_controls, List.map_cons]
    by_cases he : nb.1 = name
    · rw [if_pos he] at h
      injection h with h
      subst h
      rw [he, hc]
      simp only [lookup_assoc]
      rw [if_pos he]
    · rw [if_neg he] at h
      have hrec := ih h
      simp only [map_content_controls] at hrec
      cases hl : lookup_assoc nb.1 controlled with
      | some doc => simpa [lookup_assoc, he] using hrec
      | none => simpa [lookup_assoc, he] using hrec

/-- Claim C6: a part whose bytes do not contain the literal substring
`<w:sdt>` is placed byte-identically, under its own name, in the output of
both `map_content_controls` (composed with `get_content_controls`, which
skips such parts) and `remove_content_controls`. -/
theorem c6_sdt_free_passthrough
    (parse : ByteSeq → List Event) (pf : String → List Event)
    (serialize serialize2 : List Event → ByteSeq)
    (data : ZipData) (mappings : Mapping) (repeat_mappings : RepeatMapping)
    (name : String) (bytes : ByteSeq)
    (hnd : (data.map Prod.fst).Nodup)
    (h : lookup_assoc name data = some bytes)
    (hcc : has_content_control bytes = false) :
    lookup_assoc name (map_content_controls pf serialize data
        (get_content_controls parse data) mappings repeat_mappings) = some bytes ∧
    lookup_assoc name (remove_content_controls parse serialize2 data) = some bytes :=
  ⟨lookup_map_cc pf serialize data (get_content_controls parse data) mappings
      repeat_mappings name bytes (lookup_gcc_none parse data name bytes hnd h hcc) h,
   lookup_remove parse serialize2 data name bytes h hcc⟩

/-- Claim C6 witness: the single SDT-free part of `exPlainData` passes
through both operations byte-identically. -/
theorem c6_sdt_free_passthrough_witness :
    lookup_assoc "word/document.xml" (map_content_controls pf_text (fun _ => [])
        exPlainData (get_content_controls (fun _ => []) exPlainData) [] []) =
      some [60, 97, 62] ∧
    lookup_assoc "word/document.xml" (remove_content_controls (fun _ => [])
        (fun _ => []) exPlainData) = some [60, 97, 62] :=
  c6_sdt_free_passthrough (fun _ => []) pf_text (fun _ => []) (fun _ => [])
    exPlainData [] [] "word/document.xml" [60, 97, 62]
    (by decide) (by decide) (by decide)

/-- Claim C8: `remove_content_controls` is idempotent byte-wise on the
SDT-free parts of its output: a part of `strip(D)` that does not contain
`<w:sdt>` is returned unchanged by the second strip. -/
theorem c8_strip_idempotent_on_sdt_free
    (parse : ByteSeq → List Event) (serialize : List Event → ByteSeq)
    (data : ZipData) (name : String) (bytes : ByteSeq)
    (h : lookup_assoc name (remove_content_controls parse serialize data) = some bytes)
    (hcc : has_content_control bytes = false) :
    lookup_assoc name (remove_content_controls parse serialize
        (remove_content_controls parse serialize data)) = some bytes :=
  lookup_remove parse serialize (remove_content_controls parse serialize data)
    name bytes h hcc

/-- Claim C8 witness: stripping the stripped one-part store returns the
SDT-free part unchanged. -/
theorem c8_strip_idempotent_on_sdt_free_witness :
    lookup_assoc "word/document.xml" (remove_content_controls (fun _ => [])
        (fun _ => []) (remove_content_controls (fun _ => []) (fun _ => [])
          exPlainData)) = some [60, 97, 62] :=
  c8_strip_idempotent_on_sdt_free (fun _ => []) (fun _ => []) exPlainData
    "word/document.xml" [60, 97, 62] (by decide) (by decide)


/-! Invariant preservation steps for claim C4. -/

theorem inv_step_keep (controls : List ContentControlPosition) (counter : Int)
    (h : positions_inv controls counter) : positions_inv controls (counter + 1) := by
  obtain ⟨h1, h2, h3⟩ := h
  exact ⟨h1, fun b hb => lt_trans (h2 b hb) (by omega), h3⟩

theorem inv_step_push (controls : List ContentControlPosition) (counter : Int)
    (h : positions_inv controls counter) :
    positions_inv
      (controls ++ [{ ContentControlPosition.new with «begin» := counter }])
      (counter + 1) := by
  obtain ⟨h1, h2, h3⟩ := h
  refine ⟨?_, ?_, ?_⟩
  · rw [List.map_append]
    rw [List.pairwise_append]
    refine ⟨h1, by simp, ?_⟩
    intro a ha b hb
    simp at hb
    subst hb
    exact h2 a ha
  · intro b hb
    rw [List.map_append] at hb
    rcases List.mem_append.mp hb with hb | hb
    · exact lt_trans (h2 b hb) (by omega)
    · simp at hb
      subst hb
      omega
  · intro p hp
    rcases List.mem_append.mp hp with hp | hp
    · exact h3 p hp
    · simp at hp
      subst hp
      intro hne
      exact absurd rfl hne

theorem inv_step_ulm (controls : List ContentControlPosition) (counter : Int)
    (p : ContentControlPosition → Bool) (f : ContentControlPosition → ContentControlPosition)
    (hbegin : ∀ x, (f x).«begin» = x.«begin»)
    (hcb : ∀ x, p x = true →
      (x.content_begin = -1 ∧ (f x).content_begin = counter) ∨
        (f x).content_begin = x.content_begin)
    (h : positions_inv controls counter) :
    positions_inv (update_last_matching p f controls) (counter + 1) := by
  obtain ⟨h1, h2, h3⟩ := h
  have hmap : (update_last_matching p f controls).map (fun c => c.«begin») =
      controls.map (fun c => c.«begin») :=
    update_last_matching_map p f _ controls (fun x _ => hbegin x)
  refine ⟨by rw [hmap]; exact h1, ?_, ?_⟩
  · intro b hb
    rw [hmap] at hb
    exact lt_trans (h2 b hb) (by omega)
  · intro q hq
    rcases update_last_matching_mem p f controls q hq with hmem | ⟨x, hx, hpx, rfl⟩
    · exact h3 q hmem
    · rcases hcb x hpx with ⟨hneg, hset⟩ | hpres
      · intro _
        rw [hset, hbegin]
        exact h2 x.«begin» (List.mem_map_of_mem _ hx)
      · intro hne
        rw [hpres] at hne ⊢
        rw [hbegin]
        exact h3 x hx hne

theorem inv_step_ul (controls : List ContentControlPosition) (counter : Int)
    (f : ContentControlPosition → ContentControlPosition)
    (hbegin : ∀ x, (f x).«begin» = x.«begin»)
    (hcb : ∀ x, (f x).content_begin = x.content_begin)
    (h : positions_inv controls counter) :
    positions_inv (update_last f controls) (counter + 1) := by
  obtain ⟨h1, h2, h3⟩ := h
  have hmap : (update_last f controls).map (fun c => c.«begin») =
      controls.map (fun c => c.«begin») :=
    update_last_map f _ controls hbegin
  refine ⟨by rw [hmap]; exact h1, ?_, ?_⟩
  · intro b hb
    rw [hmap] at hb
    exact lt_trans (h2 b hb) (by omega)
  · intro q hq
    rcases update_last_mem f controls q hq with hmem | ⟨x, hx, rfl⟩
    · exact h3 q hmem
    · intro hne
      rw [hcb] at hne ⊢
      rw [hbegin]
      exact h3 x hx hne

theorem consume_inv (st : DocumentState) (e : Event) (h : state_inv st) :
    state_inv (st.consume e) := by
  cases e with
  | start name attrs =>
    simp only [DocumentState.consume, state_inv]
    split_ifs
    · exact inv_step_push st.controls st.counter h
    · exact inv_step_ulm st.controls st.counter _ _ (fun x => rfl)
        (fun x hx => Or.inl ⟨by simpa [ContentControlPosition.content_opened] using hx, rfl⟩) h
    · exact inv_step_ul st.controls st.counter _ (fun x => rfl) (fun x => rfl) h
    · exact inv_step_keep st.controls st.counter h
    · exact inv_step_ul st.controls st.counter _
        (fun x => by by_cases hr : x.run_params_start < 0 <;> simp [hr])
        (fun x => by by_cases hr : x.run_params_start < 0 <;> simp [hr]) h
    · exact inv_step_keep st.controls st.counter h
    · exact inv_step_ul st.controls st.counter _
        (fun x => by by_cases hr : x.paragraph_params_start < 0 <;> simp [hr])
        (fun x => by by_cases hr : x.paragraph_params_start < 0 <;> simp [hr]) h
    · exact inv_step_keep st.controls st.counter h
    · exact inv_step_keep st.controls st.counter h
  | «end» name =>
    simp only [DocumentState.consume, state_inv]
    split_ifs
    · exact inv_step_ulm st.controls st.counter _ _ (fun x => rfl)
        (fun x hx => Or.inr rfl) h
    · exact inv_step_ulm st.controls st.counter _ _ (fun x => rfl)
        (fun x hx => Or.inr rfl) h
    · exact inv_step_ul st.controls st.counter _
        (fun x => by by_cases hr : x.run_params_end < 0 <;> simp [hr])
        (fun x => by by_cases hr : x.run_params_end < 0 <;> simp [hr]) h
    · exact inv_step_keep st.controls st.counter h
    · exact inv_step_ul st.controls st.counter _
        (fun x => by by_cases hr : x.paragraph_params_end < 0 <;> simp [hr])
        (fun x => by by_cases hr : x.paragraph_params_end < 0 <;> simp [hr]) h
    · exact inv_step_keep st.controls st.counter h
    · exact inv_step_keep st.controls st.counter h
  | empty name attrs =>
    simp only [DocumentState.consume, state_inv]
    split
    · split
      · exact inv_step_ulm st.controls st.counter _ _ (fun x => rfl)
          (fun x hx => Or.inr rfl) h
      · split
        · refine inv_step_ul st.controls st.counter _ ?_ ?_ h
          · intro x
            induction attrs generalizing x with
            | nil => rfl
            | cons a rest ih =>
              by_cases ha : a.1 = "w:val" <;> simp [ha, ih]
          · intro x
            induction attrs generalizing x with
            | nil => rfl
            | cons a rest ih =>
              by_cases ha : a.1 = "w:val" <;> simp [ha, ih]
        · exact inv_step_keep st.controls st.counter h
    · exact inv_step_keep st.controls st.counter h
  | text s => exact inv_step_keep st.controls st.counter h
  | other s => exact inv_step_keep st.controls st.counter h
  | eof => exact inv_step_keep st.controls st.counter h


theorem state_inv_new : state_inv DocumentState.new :=
  ⟨List.Pairwise.nil, by simp [DocumentState.new], by simp [DocumentState.new]⟩

theorem run_state_inv (events : List Event) : state_inv (run_state events) := by
  have hgen : ∀ (st : DocumentState), state_inv st →
      state_inv (events.foldl DocumentState.consume st) := by
    induction events with
    | nil => exact fun st h => h
    | cons e rest ih => exact fun st h => ih _ (consume_inv st e h)
  exact hgen DocumentState.new state_inv_new

/-- Claim C4 (amended): for EVERY event sequence the indexer\'s position
list is strictly ordered by `begin` (hence no two positions share a
`begin`), and `begin < content_begin` whenever `content_begin` is set.  The
full chain `begin < content_begin < content_end < end` of the claim is NOT
guaranteed even on well-formed XML (see the counterexample, where an SDT
without its own `w:sdtContent` absorbs a sibling\'s content events). -/
theorem c4_positions_ordered (events : List Event) :
    List.Pairwise (fun a b => a.«begin» < b.«begin») (index_controls events) ∧
    ∀ p ∈ index_controls events, p.content_begin ≠ -1 → p.«begin» < p.content_begin := by
  obtain ⟨h1, h2, h3⟩ := run_state_inv events
  exact ⟨List.pairwise_map.mp h1, h3⟩

/-- Claim C4 witness: on the fixture `exC4` the position list is strictly
begin-ordered and the misattributed position still satisfies
`begin < content_begin`. -/
theorem c4_positions_ordered_witness :
    List.Pairwise (fun a b => a.«begin» < b.«begin») (index_controls exC4) ∧
    exC4B.«begin» < exC4B.content_begin :=
  ⟨(c4_positions_ordered exC4).1,
   (c4_positions_ordered exC4).2 exC4B
     (by
       have hx : index_controls exC4 =
           [{ ContentControlPosition.new with
                type := ContentControlType.richText, «begin» := 0, «end» := 5 }, exC4B] := by
         decide
       rw [hx]
       simp)
     (by decide)⟩

/-- Claim C4 counterexample: `exC4` is well-formed (balanced) XML, yet the
indexer produces a position with all four offsets set whose offsets violate
`begin < content_begin < content_end < end`: the inner SDT closes at event
2 but receives `content_begin = 3` and `content_end = 4` from the sibling
`w:sdtContent` that follows it. -/
theorem c4_counterexample :
    balanced exC4 = true ∧
    ((index_controls exC4).any (fun p => all_offsets_set p && !offsets_chain p)) = true := by
  decide

end DocxCC
